import Mathlib

/-!
# denny: logging middleware, middleware chain and derived routes

A shallow embedding of `middleware/logger.go` (`Logger`, `GetLogger`) and of
`example/brpc.go` (`Hello.SayHello`, `Hello.SayHelloAnonymous`,
`TestController.Handle`, the registrations of `main`).

Go pointers to `log.Log` are addresses into an explicit heap (`World.heap`);
`log.New` allocates the next free address.  The request context is a record
that is passed along and returned; the part of the process that is shared by
all requests (logger heap, log output) is the `World`, and the tracer is a
record of its own.
-/

namespace Denny

/-! ## Protobuf messages used by the example -/

/-- The message `pb.HelloResponse`. -/
structure HelloResponse where
  Reply : String
  deriving DecidableEq, Repr

/-- The enum `pb.Status`. -/
inductive Status where
  | STATUS_SUCCESS
  | STATUS_FAIL
  deriving DecidableEq, Repr

/-- The message `pb.HelloResponseAnonymous`. -/
structure HelloResponseAnonymous where
  Reply : String
  Status : Status
  deriving DecidableEq, Repr

/-! ## Values, loggers and the shared world -/

/-- Address of a `log.Log` value (a Go `*log.Log`). -/
abbrev LogPtr := Nat

/-- Dynamic values (`interface{}`): what is stored in the context's key-value
store, in the fields of a log entry and in the meta data of an error.  Only
`logPtr` has dynamic type `*log.Log`; `func` is a function value. -/
inductive Any where
  | nil
  | str (s : String)
  | int (n : Int)
  | logPtr (p : LogPtr)
  | func (name : String)
  | helloResponse (m : HelloResponse)
  | helloResponseAnonymous (m : HelloResponseAnonymous)
  deriving DecidableEq, Repr

/-- Structured fields of a log entry: a map from field name to value, kept as
an association list with at most one entry per key, latest first. -/
abbrev Fields := List (String × Any)

/-- Output format chosen at `log.New`. -/
inductive Formatter where
  | text
  | json
  deriving DecidableEq, Repr

/-- Modelled from the spec: the `log` package of the repository is not among the
translated files.  A logger is a formatter together with the structured
fields accumulated so far (section 6, logger collaborator interface). -/
structure Log where
  formatter : Formatter
  fields : Fields
  deriving DecidableEq, Repr

/-- One emitted line of structured log output. -/
structure LogLine where
  formatter : Formatter
  level : String
  msg : String
  fields : Fields
  deriving DecidableEq, Repr

/-- State shared by all requests of the process: the loggers allocated so far
(`heap`, addresses below `nextPtr` are in use) and the log output. -/
structure World where
  heap : LogPtr → Log
  nextPtr : LogPtr
  out : List LogLine

/-- Set one key of a field map. -/
def Fields.set (fs : Fields) (k : String) (v : Any) : Fields :=
  (k, v) :: fs.filter (fun e => e.1 != k)

/-- Overwrite the logger stored at address `p`. -/
def World.store (w : World) (p : LogPtr) (l : Log) : World :=
  { w with heap := fun q => if q = p then l else w.heap q }

/-- Modelled from the spec: `log.New(formatter...)` of the absent `log` package
returns a new logger without fields; without an argument the default (text)
formatter is used. -/
def log.New (f : Formatter) (w : World) : LogPtr × World :=
  (w.nextPtr,
   { heap := fun q => if q = w.nextPtr then { formatter := f, fields := [] } else w.heap q,
     nextPtr := w.nextPtr + 1,
     out := w.out })

/-- Modelled from the spec: `(*log.Log).WithField(key, value)` of the absent
`log` package adds the field to the logger it is called on (the sources call
it as a statement, for its effect on the logger). -/
def log.WithField (p : LogPtr) (k : String) (v : Any) (w : World) : World :=
  w.store p { w.heap p with fields := (w.heap p).fields.set k v }

/-- Modelled from the spec: `(*log.Log).WithFields(map)` adds every entry of
the map, given here as a list of distinct keys. -/
def log.WithFields (p : LogPtr) (kvs : List (String × Any)) (w : World) : World :=
  w.store p { w.heap p with fields := kvs.foldl (fun fs e => fs.set e.1 e.2) (w.heap p).fields }

/-- The line a logger writes for `Infof`. -/
def Log.line (l : Log) (msg : String) : LogLine :=
  { formatter := l.formatter, level := "info", msg := msg, fields := l.fields }

/-- Modelled from the spec: `(*log.Log).Infof(format)` writes one line at info
level that carries the logger's fields. -/
def log.Infof (p : LogPtr) (msg : String) (w : World) : World :=
  { w with out := w.out ++ [(w.heap p).line msg] }

/-! ## The request context -/

/-- The parts of `http.Request` that the middleware reads. -/
structure HTTPRequest where
  Method : String
  RequestURI : String
  UserAgent : String
  deriving DecidableEq, Repr

/-- One entry of the context's error list (`gin.Error`). -/
structure GinError where
  Err : String
  ErrType : Nat
  Meta : Any
  deriving DecidableEq, Repr

/-- A response handed to the response writer. -/
structure Response where
  code : Int
  contentType : String
  body : Any
  deriving DecidableEq, Repr

/-- The response writer: the status it reports and the responses written. -/
structure ResponseWriter where
  status : Int
  written : List Response
  deriving DecidableEq, Repr

/-- The request context `denny.Context`.  `Errors` is a Go slice: `none` is
the nil slice, `some []` an empty slice that is not nil. -/
structure Context where
  Request : HTTPRequest
  clientIP : String
  Keys : List (String × Any)
  Errors : Option (List GinError)
  Writer : ResponseWriter
  deriving DecidableEq, Repr

/-- The method `ctx.ClientIP()`. -/
def Context.ClientIP (c : Context) : String := c.clientIP

/-- The method `ctx.Set(key, value)`: store the value under the key. -/
def Context.Set (c : Context) (k : String) (v : Any) : Context :=
  { c with Keys := (k, v) :: c.Keys.filter (fun e => e.1 != k) }

/-- The method `ctx.Get(key)`: the value and whether the key exists. -/
def Context.Get (c : Context) (k : String) : Option Any :=
  c.Keys.lookup k

/-- The method `ctx.Writer.Status()`. -/
def ResponseWriter.Status (r : ResponseWriter) : Int := r.status

/-- The method `ctx.JSON(code, obj)`: one JSON response with that status. -/
def Context.JSON (c : Context) (code : Int) (obj : Any) : Context :=
  { c with Writer :=
      { status := code,
        written := c.Writer.written ++
          [{ code := code, contentType := "application/json", body := obj }] } }

/-! ## `middleware/logger.go` -/

/-- The package variable `logKey`. -/
def logKey : String := "dennyLogger"

/-- Rendering of a value with the verb `%v`. -/
def fmtV : Any → String
  | .nil => "<nil>"
  | .str s => s
  | .int n => toString n
  | .logPtr p => "0x" ++ toString p
  | .func name => "func " ++ name
  | .helloResponse m => "reply:" ++ m.Reply
  | .helloResponseAnonymous m => "reply:" ++ m.Reply

/-- The function `GetLogger`.  `Except.error` is the panic; its value is the
formatted error. -/
def GetLogger (ctx : Context) (w : World) : Except String (LogPtr × World) :=
  match ctx.Get logKey with
  | none => .ok (log.New .text w)
  | some logger =>
    match logger with
    | .logPtr l => .ok (l, w)
    | _ => .error (fmtV logger ++ " is not logger")

/-- A handler as the chain sees it (`denny.HandleFunc`): it takes the request
context and the shared world and returns with both updated.  A handler that
panics instead of returning is outside this type. -/
abbrev HandleFunc := Context × World → Context × World

/-- What the handler returned by `Logger` does, in program order. -/
inductive Event where
  | logNew (p : LogPtr)
  | withFields (p : LogPtr) (kvs : List (String × Any))
  | withField (p : LogPtr) (k : String) (v : Any)
  | ctxSet (k : String) (v : Any)
  | next
  | status (code : Int)
  | errors (es : Option (List GinError))
  | infof (p : LogPtr) (msg : String)
  deriving DecidableEq, Repr

/-- The handler returned by `Logger()`, statement by statement, together with
the list of its own actions.  `next` is what `ctx.Next()` runs (the rest of
the chain), `marshalJSON` is `ctx.Errors.MarshalJSON()` with `Except.error`
for `err != nil`, and `now` is `time.Now().Format(time.RFC3339)`. -/
def Logger.run (marshalJSON : List GinError → Except String String) (now : String)
    (next : HandleFunc) (s : Context × World) : (Context × World) × List Event :=
  let ctx := s.1
  let w := s.2
  let (logger, w) := log.New .json w
  let tr := [Event.logNew logger]
  let clientIP := ctx.ClientIP
  let method := ctx.Request.Method
  let userAgent := ctx.Request.UserAgent
  let uri := ctx.Request.RequestURI
  let errs := ""
  let kvs := [("ClientIP", Any.str clientIP), ("RequestMethod", Any.str method),
    ("UserAgent", Any.str userAgent), ("Uri", Any.str uri)]
  let w := log.WithFields logger kvs w
  let tr := tr ++ [Event.withFields logger kvs]
  let ctx := ctx.Set logKey (.logPtr logger)
  let tr := tr ++ [Event.ctxSet logKey (.logPtr logger)]
  let (ctx, w) := next (ctx, w)
  let tr := tr ++ [Event.next]
  let statusCode := ctx.Writer.Status
  let tr := tr ++ [Event.status statusCode]
  let w := log.WithField logger "Status" (.int statusCode) w
  let tr := tr ++ [Event.withField logger "Status" (.int statusCode)]
  let tr := tr ++ [Event.errors ctx.Errors]
  let errs :=
    match ctx.Errors with
    | some es =>
      match marshalJSON es with
      | .ok bs => bs
      | .error _ => errs
    | none => errs
  let (w, tr) :=
    if errs.length > 0 then
      (log.WithField logger "Errors" (.str errs) w, tr ++ [Event.withField logger "Errors" (.str errs)])
    else (w, tr)
  let w := log.Infof logger now w
  let tr := tr ++ [Event.infof logger now]
  ((ctx, w), tr)

/-- The function `Logger`: the handler it returns, as a wrapper around the
rest of the chain. -/
def Logger (marshalJSON : List GinError → Except String String) (now : String)
    (next : HandleFunc) : HandleFunc :=
  fun s => (Logger.run marshalJSON now next s).1

/-- The statements of the handler before `ctx.Next()` (lines 16 to 32): the
context and world at the call, and the local variable `logger`. -/
def Logger.pre (s : Context × World) : (Context × World) × LogPtr :=
  let ctx := s.1
  let w := s.2
  let (logger, w) := log.New .json w
  let kvs := [("ClientIP", Any.str ctx.ClientIP), ("RequestMethod", Any.str ctx.Request.Method),
    ("UserAgent", Any.str ctx.Request.UserAgent), ("Uri", Any.str ctx.Request.RequestURI)]
  let w := log.WithFields logger kvs w
  let ctx := ctx.Set logKey (.logPtr logger)
  ((ctx, w), logger)

/-- The value of the local variable `errs` at line 44. -/
def Logger.errs (marshalJSON : List GinError → Except String String) (ctx : Context) : String :=
  match ctx.Errors with
  | some es =>
    match marshalJSON es with
    | .ok bs => bs
    | .error _ => ""
  | none => ""

/-- The statements of the handler after `ctx.Next()` has returned (lines 34
to 47), for the local variable `logger`. -/
def Logger.post (marshalJSON : List GinError → Except String String) (now : String)
    (logger : LogPtr) (s : Context × World) : Context × World :=
  let ctx := s.1
  let w := s.2
  let statusCode := ctx.Writer.Status
  let w := log.WithField logger "Status" (.int statusCode) w
  let errs := Logger.errs marshalJSON ctx
  let w := if errs.length > 0 then log.WithField logger "Errors" (.str errs) w else w
  let w := log.Infof logger now w
  (ctx, w)

/-! ## `example/brpc.go` -/

/-- The method `TestController.Handle`. -/
def TestController.Handle : HandleFunc :=
  fun s => (s.1.JSON 200 (.helloResponse { Reply := "ha" }), s.2)

/-- A `context.Context` as the gRPC methods receive it. -/
structure GoContext where
  values : List (String × Any)
  span : Option Nat
  deriving DecidableEq, Repr

/-- What the tracer has seen. -/
inductive SpanEvent where
  | start (id : Nat) (operation : String)
  | finish (id : Nat)
  deriving DecidableEq, Repr

/-- The global tracer: the spans it has handed out and its record. -/
structure Tracer where
  nextSpan : Nat
  events : List SpanEvent
  deriving DecidableEq, Repr

/-- The call `opentracing.StartSpanFromContext(ctx, operation)`: a new span and
the context that carries it. -/
def StartSpanFromContext (ctx : GoContext) (operation : String) (t : Tracer) :
    Nat × GoContext × Tracer :=
  (t.nextSpan, { ctx with span := some t.nextSpan },
   { nextSpan := t.nextSpan + 1, events := t.events ++ [.start t.nextSpan operation] })

/-- The method `span.Finish()`. -/
def Span.Finish (span : Nat) (t : Tracer) : Tracer :=
  { t with events := t.events ++ [.finish span] }

/-- Run the deferred calls of a function at its return, last deferred first. -/
def runDeferred (deferred : List (Tracer → Tracer)) (t : Tracer) : Tracer :=
  deferred.reverse.foldl (fun acc f => f acc) t

/-- The method `Hello.SayHello`.  `getLogger` is `denny.GetLogger`, which is
not among the translated files and is taken as a parameter: it yields a
logger for the context and may allocate one.  The result is the response and
the error (`none` is the nil error). -/
def Hello.SayHello (getLogger : GoContext → World → LogPtr × World) (ctx : GoContext)
    (s : World × Tracer) : (HelloResponse × Option String) × (World × Tracer) :=
  let (logger, w) := getLogger ctx s.1
  let response : HelloResponse := { Reply := "hi" }
  let w := log.WithField logger "response" (.helloResponse response) w
  ((response, none), (w, s.2))

/-- The method `Hello.SayHelloAnonymous`, with `getLogger` as in `SayHello`.
The deferred `span.Finish()` runs when the method returns. -/
def Hello.SayHelloAnonymous (getLogger : GoContext → World → LogPtr × World) (ctx : GoContext)
    (s : World × Tracer) : (HelloResponseAnonymous × Option String) × (World × Tracer) :=
  let (logger, w) := getLogger ctx s.1
  let t := s.2
  let deferred : List (Tracer → Tracer) := []
  let (span, _ctx, t) := StartSpanFromContext ctx "sayHello" t
  let deferred := deferred ++ [Span.Finish span]
  let response : HelloResponseAnonymous := { Reply := "hoho", Status := .STATUS_SUCCESS }
  let w := log.WithField logger "response" (.helloResponseAnonymous response) w
  let ret : HelloResponseAnonymous × Option String := (response, none)
  let t := runDeferred deferred t
  (ret, (w, t))

/-! ## The dispatch core: middleware chain, classifier, route table -/

/-- Modelled from the spec: the chain runner of the framework is not among the
translated files.  A middleware entry takes the rest of the chain (`next`)
and the request state; it either invokes `next` or stops (section 3,
MiddlewareEntry). -/
abbrev MiddlewareEntry (σ : Type) := (σ → σ) → σ → σ

/-- Modelled from the spec: `Run(context, handler)` of section 4.3, absent from
the translated files.  Entries are invoked in registration order, each one
receiving the remainder of the chain as its `next`; the handler is the
terminal step. -/
def Run {σ : Type} (entries : List (MiddlewareEntry σ)) (handler : σ → σ) : σ → σ :=
  entries.foldr (fun entry next => entry next) handler

/-- Modelled from the spec: a middleware of the ordered-log property of
section 8: it appends its name to the shared ordered log on entry, calls
`next` once, and appends its name again on exit. -/
def enterExit (name : String) : MiddlewareEntry (List String) :=
  fun next log => next (log ++ [name ++ "-enter"]) ++ [name ++ "-exit"]

/-- Modelled from the spec: the terminal handler `H` of the ordered-log
property of section 8. -/
def terminalH : List String → List String :=
  fun log => log ++ ["H"]

/-- HTTP verbs (`denny.HttpGet`, `denny.HttpPost`). -/
inductive Verb where
  | HttpGet
  | HttpPost
  deriving DecidableEq, Repr

/-- Identity of a message type: the empty sentinel `empty.Empty`, or a named
message. -/
inductive TypeId where
  | empty
  | message (name : String)
  deriving DecidableEq, Repr

/-- A method of a registered service (section 3, ServiceMethodDescriptor). -/
structure ServiceMethodDescriptor where
  serviceName : String
  methodName : String
  inputType : TypeId
  outputType : TypeId
  deriving DecidableEq, Repr

/-- The two classes of methods. -/
inductive MethodClass where
  | query
  | command
  deriving DecidableEq, Repr

/-- Modelled from the spec: the MethodClassifier of section 4.1, absent from
the translated files.  The empty sentinel input type makes a query, every
other input type a command. -/
def classify (d : ServiceMethodDescriptor) : MethodClass :=
  match d.inputType with
  | .empty => .query
  | .message _ => .command

/-- Modelled from the spec: the verb bound to a class (section 4.1). -/
def MethodClass.verb : MethodClass → Verb
  | .query => .HttpGet
  | .command => .HttpPost

/-- The descriptor of `Hello.SayHello` (line 25). -/
def Hello.sayHello : ServiceMethodDescriptor :=
  { serviceName := "Hello", methodName := "SayHello",
    inputType := .message "HelloRequest", outputType := .message "HelloResponse" }

/-- The descriptor of `Hello.SayHelloAnonymous` (line 43). -/
def Hello.sayHelloAnonymous : ServiceMethodDescriptor :=
  { serviceName := "Hello", methodName := "SayHelloAnonymous",
    inputType := .empty, outputType := .message "HelloResponseAnonymous" }

/-- The methods of the service `Hello`. -/
def Hello.methods : List ServiceMethodDescriptor :=
  [Hello.sayHello, Hello.sayHelloAnonymous]

/-- Split an identifier at its case transitions: a new part starts at every
upper-case letter that follows a lower-case letter.  `cur` is the part being
read, reversed. -/
def splitCase : List Char → List Char → List (List Char)
  | cur, [] => if cur.isEmpty then [] else [cur.reverse]
  | [], c :: cs => splitCase [c] cs
  | p :: ps, c :: cs =>
    if p.isLower && c.isUpper then (p :: ps).reverse :: splitCase [c] cs
    else splitCase (c :: p :: ps) cs

/-- Modelled from the spec: kebab-case derivation (section 4.2 and glossary),
absent from the translated files: split on case transitions, lowercase the
parts, join them with hyphens. -/
def kebab (name : String) : String :=
  "-".intercalate ((splitCase [] name.data).map (fun part => String.mk (part.map Char.toLower)))

/-- A word of a camel-case identifier: an upper-case letter followed by one or
more lower-case letters. -/
def isCamelWord : List Char → Bool
  | c :: x :: r => c.isUpper && (x :: r).all Char.isLower
  | _ => false

/-- Modelled from the spec: path derivation of the RouteTable (section 4.2),
absent from the translated files; the rule is also the comment at line 41 of
`example/brpc.go`: `group + "/" + kebab(serviceName) + "/" + kebab(methodName)`. -/
def derivePath (group : String) (d : ServiceMethodDescriptor) : String :=
  group ++ "/" ++ kebab d.serviceName ++ "/" ++ kebab d.methodName

/-- Modelled from the spec: an entry of the route table (section 3,
RouteEntry): path and verb are the key, the value is the handler with the
middleware attached at registration. -/
structure RouteEntry where
  path : String
  verb : Verb
  chain : List (MiddlewareEntry (Context × World))
  handler : HandleFunc

/-- Modelled from the spec: the server under construction, its shared
middleware and its routes. -/
structure Server where
  middleware : List (MiddlewareEntry (Context × World))
  routes : List RouteEntry

/-- Modelled from the spec: a route group, its path and the middleware
attached to it. -/
structure Group where
  path : String
  middleware : List (MiddlewareEntry (Context × World))

/-- Modelled from the spec: `denny.NewServer`. -/
def NewServer : Server := { middleware := [], routes := [] }

/-- Modelled from the spec: `server.Use(entry)` appends to the shared chain. -/
def Server.Use (srv : Server) (entry : MiddlewareEntry (Context × World)) : Server :=
  { srv with middleware := srv.middleware ++ [entry] }

/-- Modelled from the spec: `server.NewGroup(path)` (section 4.4,
RegisterHTTPGroup). -/
def Server.NewGroup (srv : Server) (path : String) : Group :=
  { path := path, middleware := srv.middleware }

/-- Modelled from the spec: `Register` of section 4.2; a later registration
for the same key overrides. -/
def Server.Register (srv : Server) (e : RouteEntry) : Server :=
  { srv with routes := e :: srv.routes }

/-- Modelled from the spec: `group.Controller(path, verb, controller)`; the
route is the group path followed by the given path. -/
def Group.Controller (g : Group) (srv : Server) (path : String) (verb : Verb)
    (handle : HandleFunc) : Server :=
  srv.Register { path := g.path ++ path, verb := verb, chain := g.middleware, handler := handle }

/-- Modelled from the spec: `group.BrpcController(service)` (section 4.4,
BindService): every method is classified and registered under its derived
path.  `adapter` wraps a method as a handler. -/
def Group.BrpcController (g : Group) (srv : Server) (methods : List ServiceMethodDescriptor)
    (adapter : ServiceMethodDescriptor → HandleFunc) : Server :=
  methods.foldl (fun acc d =>
    acc.Register { path := derivePath g.path d, verb := (classify d).verb,
                   chain := g.middleware, handler := adapter d }) srv

/-- Modelled from the spec: `Resolve(path, verb)` of section 4.2. -/
def Server.Resolve (srv : Server) (path : String) (verb : Verb) : Option RouteEntry :=
  srv.routes.find? (fun e => e.path == path && e.verb == verb)

/-- Modelled from the spec: dispatch of one HTTP request (section 4.4): resolve
the route and run its chain around the handler; `none` is not-found. -/
def Server.Serve (srv : Server) (verb : Verb) (path : String) (s : Context × World) :
    Option (Context × World) :=
  (srv.Resolve path verb).map (fun e => Run e.chain e.handler s)

/-- The registrations of `main` (lines 105 to 121). -/
def main (marshalJSON : List GinError → Except String String) (now : String)
    (adapter : ServiceMethodDescriptor → HandleFunc) : Server :=
  let server := NewServer
  let server := server.Use (Logger marshalJSON now)
  let group := server.NewGroup "/hi"
  let server := group.Controller server "/hi" .HttpPost TestController.Handle
  let authorized := server.NewGroup "/"
  let server := authorized.BrpcController server Hello.methods adapter
  server

/-! ## Two requests in flight -/

/-- The logger that a context carries under `logKey`, if it carries one. -/
def ownLogger (c : Context) : Option LogPtr :=
  match c.Get logKey with
  | some (.logPtr p) => some p
  | _ => none

/-- A handler that reaches existing loggers only through its own context:
called with a context that carries the allocated logger `p`, it frees no
address, leaves every other allocated logger as it is, and only adds to the
log output.  It may change the logger `p`, write lines and allocate loggers. -/
structure Framed (h : HandleFunc) : Prop where
  alloc : ∀ (c : Context) (w : World), w.nextPtr ≤ (h (c, w)).2.nextPtr
  heap : ∀ (c : Context) (w : World) (p q : LogPtr), ownLogger c = some p → p < w.nextPtr →
    q < w.nextPtr → q ≠ p → (h (c, w)).2.heap q = w.heap q
  out : ∀ (c : Context) (w : World) (L : LogLine), L ∈ w.out → L ∈ (h (c, w)).2.out

/-- What the statements after `ctx.Next()` read: the status and the errors of
the context, and the content of the request's logger. -/
structure Outcome where
  status : Int
  errors : Option (List GinError)
  log : Log

/-- A handler whose outcome is computed from its own context and the content
of the logger that context carries: `g` is that computation. -/
def Local (h : HandleFunc) (g : Context → Log → Outcome) : Prop :=
  ∀ (c : Context) (w : World) (p : LogPtr), ownLogger c = some p → p < w.nextPtr →
    g c (w.heap p) =
      { status := (h (c, w)).1.Writer.Status, errors := (h (c, w)).1.Errors,
        log := (h (c, w)).2.heap p }

/-- The content of the logger of a request when `ctx.Next()` is called (after
lines 16 to 31). -/
def Logger.fresh (c : Context) : Log :=
  { formatter := .json,
    fields := [("Uri", Any.str c.Request.RequestURI), ("UserAgent", Any.str c.Request.UserAgent),
      ("RequestMethod", Any.str c.Request.Method), ("ClientIP", Any.str c.ClientIP)] }

/-- The serialized errors as lines 38 to 43 compute them from the error list. -/
def Logger.errsOf (m : List GinError → Except String String) :
    Option (List GinError) → String
  | some es =>
    match m es with
    | .ok bs => bs
    | .error _ => ""
  | none => ""

/-- The line that lines 34 to 47 write for an outcome of `ctx.Next()`. -/
def Logger.entry (m : List GinError → Except String String) (now : String) (o : Outcome) :
    LogLine :=
  { formatter := o.log.formatter, level := "info", msg := now,
    fields :=
      if (Logger.errsOf m o.errors).length > 0 then
        (o.log.fields.set "Status" (.int o.status)).set "Errors" (.str (Logger.errsOf m o.errors))
      else o.log.fields.set "Status" (.int o.status) }

/-- One request on its way through the handler returned by `Logger`: the
program counter (0 at entry, 1 at `ctx.Next()`, 2 when it has returned, 3 at
the end), the context, the local variable `logger`, what `ctx.Next()` runs,
and the line the request has written. -/
structure Task where
  pc : Nat
  ctx : Context
  logger : LogPtr
  handler : HandleFunc
  line : Option LogLine

/-- One scheduling step of a request: the statements up to the next point at
which another request may run. -/
def Task.step (m : List GinError → Except String String) (now : String) (t : Task)
    (w : World) : Task × World :=
  match t.pc with
  | 0 =>
    let r := Logger.pre (t.ctx, w)
    ({ t with pc := 1, ctx := r.1.1, logger := r.2 }, r.1.2)
  | 1 =>
    let r := t.handler (t.ctx, w)
    ({ t with pc := 2, ctx := r.1 }, r.2)
  | 2 =>
    let r := Logger.post m now t.logger (t.ctx, w)
    ({ t with pc := 3, ctx := r.1, line := r.2.out.getLast? }, r.2)
  | _ => (t, w)

/-- Two requests, indexed by a Boolean, over one shared world. -/
structure Sys where
  world : World
  task : Bool → Task

/-- The request `k` takes one step. -/
def Sys.step (m : List GinError → Except String String) (now : String) (s : Sys)
    (k : Bool) : Sys :=
  { world := ((s.task k).step m now s.world).2,
    task := fun j => if j = k then ((s.task k).step m now s.world).1 else s.task j }

/-- Run the two requests under a schedule: the list says who steps next. -/
def Sys.run (m : List GinError → Except String String) (now : String) (sched : List Bool)
    (s : Sys) : Sys :=
  sched.foldl (Sys.step m now) s

/-- A request at the entry of the handler. -/
def Task.start (c : Context) (h : HandleFunc) : Task :=
  { pc := 0, ctx := c, logger := 0, handler := h, line := none }

/-- Two requests at the entry of the handler. -/
def Sys.start (w : World) (t : Bool → Task) : Sys :=
  { world := w, task := t }

/-- A later handler in the manner of `Hello.SayHello` (lines 27 and 33): it
asks `GetLogger` for the logger of its context and adds one field to it.  If
`GetLogger` panics nothing is added. -/
def addField (k : String) (v : Any) : HandleFunc :=
  fun s =>
    match GetLogger s.1 s.2 with
    | .ok (l, w) => (s.1, log.WithField l k v w)
    | .error _ => s

/-- A handler that adds a field to the logger of its context, writes a line
through it, and allocates a logger of its own that it keeps in its context. -/
def chatty : HandleFunc :=
  fun s =>
    match GetLogger s.1 s.2 with
    | .ok (l, w) =>
      let w := log.WithField l "note" (.str "working") w
      let w := log.Infof l "progress" w
      let (l2, w) := log.New .text w
      (s.1.Set "aux" (.logPtr l2), w)
    | .error _ => s

/-- The local computation of `recordError`. -/
def recordErrorLocal (e : GinError) (c : Context) (l : Log) : Outcome :=
  { status := c.Writer.Status, errors := some (c.Errors.getD [] ++ [e]), log := l }

/-- The local computation of `TestController.Handle`. -/
def HandleLocal (c : Context) (l : Log) : Outcome :=
  { status := 200, errors := c.Errors, log := l }

/-- The local computation of `chatty`. -/
def chattyLocal (c : Context) (l : Log) : Outcome :=
  { status := c.Writer.Status, errors := c.Errors,
    log := { l with fields := l.fields.set "note" (.str "working") } }

/-- A handler that reaches a logger which is not in its context: it records
the error and also writes it to the logger at the address `q` (a logger kept
in a package variable). -/
def leak (q : LogPtr) (e : GinError) : HandleFunc :=
  fun s =>
    ({ s.1 with Errors := some (s.1.Errors.getD [] ++ [e]) },
     log.WithField q "Errors" (.str e.Err) s.2)

/-- A sample request. -/
def sampleRequest : HTTPRequest :=
  { Method := "POST", RequestURI := "/hi/hi", UserAgent := "curl/8.0" }

/-- A sample context: no keys, no errors, nothing written. -/
def sampleContext : Context :=
  { Request := sampleRequest, clientIP := "10.0.0.7", Keys := [], Errors := none,
    Writer := { status := 200, written := [] } }

/-- A world without loggers and without output. -/
def emptyWorld : World :=
  { heap := fun _ => { formatter := .text, fields := [] }, nextPtr := 0, out := [] }

/-- A handler that fails: it records the error in the context's error list
(`ctx.Error(err)`) and returns. -/
def recordError (e : GinError) : HandleFunc :=
  fun s => ({ s.1 with Errors := some (s.1.Errors.getD [] ++ [e]) }, s.2)

/-- A serializer in the manner of `encoding/json`: function values are not
supported, every other error list is rendered. -/
def sampleMarshalJSON (es : List GinError) : Except String String :=
  if es.any (fun e => match e.Meta with | .func _ => true | _ => false) then
    .error "json: unsupported type: func()"
  else .ok ("[" ++ ",".intercalate (es.map (fun e => e.Err)) ++ "]")

/-- An error without meta data. -/
def plainError : GinError := { Err := "boom", ErrType := 1, Meta := .nil }

/-- An error whose meta data is a function value. -/
def funcError : GinError := { Err := "boom", ErrType := 1, Meta := .func "callback" }

/-- Whether an action is a call of `Infof`. -/
def Event.isInfof : Event → Bool
  | .infof _ _ => true
  | _ => false

/-- A handler that reads a logger which is not in its context (a logger kept
in a package variable, at the address `q`) and copies its `Errors` field to
the logger of its own context. -/
def snoop (q : LogPtr) : HandleFunc :=
  fun s =>
    match GetLogger s.1 s.2 with
    | .ok (l, w) =>
      match (w.heap q).fields.lookup "Errors" with
      | some v => (s.1, log.WithField l "Errors" v w)
      | none => (s.1, w)
    | .error _ => s

/-- What holds of a request and the world it runs in: its logger has been
allocated, at `ctx.Next()` its context carries its logger, and what
`ctx.Next()` runs is framed. -/
structure Task.WF (t : Task) (w : World) : Prop where
  below : 1 ≤ t.pc → t.logger < w.nextPtr
  own : t.pc = 1 → ownLogger t.ctx = some t.logger
  framed : Framed t.handler

/-- What holds of a request that started with the context `c` and whose
handler has the local computation `g`, at each program counter. -/
structure Task.Inv (m : List GinError → Except String String) (now : String) (c : Context)
    (g : Context → Log → Outcome) (t : Task) (w : World) : Prop where
  isLocal : Local t.handler g
  at0 : t.pc = 0 → t.ctx = c
  at1 : t.pc = 1 → t.ctx = c.Set logKey (.logPtr t.logger) ∧ w.heap t.logger = Logger.fresh c
  at2 : t.pc = 2 → g (c.Set logKey (.logPtr t.logger)) (Logger.fresh c) =
    { status := t.ctx.Writer.Status, errors := t.ctx.Errors, log := w.heap t.logger }
  at3 : 3 ≤ t.pc → ∃ L : LogLine, t.line = some L ∧ L ∈ w.out ∧
    L = Logger.entry m now (g (c.Set logKey (.logPtr t.logger)) (Logger.fresh c)) ∧
    (g (c.Set logKey (.logPtr t.logger)) (Logger.fresh c)).status = t.ctx.Writer.Status ∧
    (g (c.Set logKey (.logPtr t.logger)) (Logger.fresh c)).errors = t.ctx.Errors

/-- What holds of two requests over one world: both are well-formed, their
loggers are distinct, and the request `i` satisfies its invariant. -/
structure Sys.Inv (m : List GinError → Except String String) (now : String) (i : Bool)
    (c : Context) (g : Context → Log → Outcome) (s : Sys) : Prop where
  wf : ∀ j, (s.task j).WF s.world
  apart : 1 ≤ (s.task i).pc → 1 ≤ (s.task (!i)).pc →
    (s.task i).logger ≠ (s.task (!i)).logger
  inv : (s.task i).Inv m now c g s.world

/-! ## Theorems -/

/-! ## Lemmas on the key-value maps -/

theorem lookup_filter_ne (l : List (String × Any)) (k k2 : String) (h : k2 ≠ k) :
    (l.filter (fun e => e.1 != k)).lookup k2 = l.lookup k2 := by
  induction l with
  | nil => rfl
  | cons e l ih =>
    obtain ⟨a, b⟩ := e
    by_cases hak : a = k
    · subst hak
      have h1 : (k2 == a) = false := by simpa using h
      simp [List.filter, List.lookup, h1, ih]
    · have h1 : (a != k) = true := by simpa using hak
      simp only [List.filter, h1, List.lookup]
      rw [ih]

theorem Fields.lookup_set_self (fs : Fields) (k : String) (v : Any) :
    (fs.set k v).lookup k = some v := by
  simp [Fields.set, List.lookup]

theorem Fields.lookup_set_ne (fs : Fields) (k k2 : String) (v : Any) (h : k2 ≠ k) :
    (fs.set k v).lookup k2 = fs.lookup k2 := by
  have h1 : (k2 == k) = false := by simpa using h
  simp only [Fields.set, List.lookup, h1]
  exact lookup_filter_ne fs k k2 h

theorem Context.Get_Set_self (c : Context) (k : String) (v : Any) :
    (c.Set k v).Get k = some v := by
  simp [Context.Set, Context.Get, List.lookup]

theorem Context.Get_Set_ne (c : Context) (k k2 : String) (v : Any) (h : k2 ≠ k) :
    (c.Set k v).Get k2 = c.Get k2 := by
  have h1 : (k2 == k) = false := by simpa using h
  simp only [Context.Set, Context.Get, List.lookup, h1]
  exact lookup_filter_ne c.Keys k k2 h

/-- C10: the three outcomes of `GetLogger`. -/
theorem GetLogger_outcomes (ctx : Context) (w : World) :
    (ctx.Get logKey = none →
      ∃ w2, GetLogger ctx w = .ok (w.nextPtr, w2) ∧ w2.nextPtr = w.nextPtr + 1 ∧
        w2.heap w.nextPtr = { formatter := .text, fields := [] } ∧
        (∀ q, q ≠ w.nextPtr → w2.heap q = w.heap q) ∧ w2.out = w.out) ∧
    (∀ l, ctx.Get logKey = some (.logPtr l) → GetLogger ctx w = .ok (l, w)) ∧
    ((∃ e, GetLogger ctx w = .error e) ↔
      ∃ v, ctx.Get logKey = some v ∧ ∀ l, v ≠ .logPtr l) ∧
    (∀ v, ctx.Get logKey = some v → (∀ l, v ≠ .logPtr l) →
      GetLogger ctx w = .error (fmtV v ++ " is not logger")) := by
  refine ⟨?_, ?_, ?_, ?_⟩
  · intro h
    refine ⟨(log.New .text w).2, ?_, rfl, ?_, ?_, rfl⟩
    · simp [GetLogger, h, log.New]
    · simp [log.New]
    · intro q hq
      simp [log.New, hq]
  · intro l h
    simp [GetLogger, h]
  · constructor
    · rintro ⟨e, he⟩
      cases hget : ctx.Get logKey with
      | none => simp [GetLogger, hget] at he
      | some v =>
        refine ⟨v, rfl, ?_⟩
        intro l hl
        subst hl
        simp [GetLogger, hget] at he
    · rintro ⟨v, hv, hne⟩
      cases v with
      | logPtr l => exact absurd rfl (hne l)
      | _ => simp [GetLogger, hv]
  · intro v hv hne
    cases v with
    | logPtr l => exact absurd rfl (hne l)
    | _ => simp [GetLogger, hv]

theorem Logger_eq_pre_post (m : List GinError → Except String String) (now : String)
    (next : HandleFunc) (s : Context × World) :
    Logger m now next s = Logger.post m now (Logger.pre s).2 (next (Logger.pre s).1) := by
  simp only [Logger, Logger.run, Logger.post, Logger.pre, Logger.errs]
  split <;> rfl

theorem Logger.pre_logger (s : Context × World) : (Logger.pre s).2 = s.2.nextPtr := rfl

theorem Logger.pre_ctx (s : Context × World) :
    (Logger.pre s).1.1 = s.1.Set logKey (.logPtr s.2.nextPtr) := rfl

theorem Logger.pre_fields (s : Context × World) :
    ((Logger.pre s).1.2.heap s.2.nextPtr).fields =
      [("Uri", Any.str s.1.Request.RequestURI), ("UserAgent", Any.str s.1.Request.UserAgent),
       ("RequestMethod", Any.str s.1.Request.Method), ("ClientIP", Any.str s.1.ClientIP)] := by
  simp [Logger.pre, log.New, log.WithFields, World.store, Fields.set]

theorem Logger.post_out (m : List GinError → Except String String) (now : String)
    (p : LogPtr) (s : Context × World) :
    (Logger.post m now p s).2.out = s.2.out ++ [((Logger.post m now p s).2.heap p).line now] := by
  simp only [Logger.post, log.Infof]
  split <;> simp [log.WithField, World.store]

theorem Logger.post_ctx (m : List GinError → Except String String) (now : String)
    (p : LogPtr) (s : Context × World) : (Logger.post m now p s).1 = s.1 := rfl

theorem Logger.post_line (m : List GinError → Except String String) (now : String)
    (p : LogPtr) (s : Context × World) :
    (Logger.post m now p s).2.out.getLast? =
      some (((Logger.post m now p s).2.heap p).line now) := by
  rw [Logger.post_out]
  simp

theorem Logger.run_trace (m : List GinError → Except String String) (now : String)
    (next : HandleFunc) (s : Context × World) :
    (Logger.run m now next s).2 =
      [.logNew s.2.nextPtr,
       .withFields s.2.nextPtr
         [("ClientIP", .str s.1.ClientIP), ("RequestMethod", .str s.1.Request.Method),
          ("UserAgent", .str s.1.Request.UserAgent), ("Uri", .str s.1.Request.RequestURI)],
       .ctxSet logKey (.logPtr s.2.nextPtr), .next] ++
      ([.status (next (Logger.pre s).1).1.Writer.Status,
        .withField s.2.nextPtr "Status" (.int (next (Logger.pre s).1).1.Writer.Status),
        .errors (next (Logger.pre s).1).1.Errors] ++
       (if (Logger.errs m (next (Logger.pre s).1).1).length > 0 then
          [.withField s.2.nextPtr "Errors" (.str (Logger.errs m (next (Logger.pre s).1).1))]
        else []) ++
       [.infof s.2.nextPtr now]) := by
  simp only [Logger.run, Logger.errs, Logger.pre]
  split <;> simp [log.New]

theorem Logger.post_fields (m : List GinError → Except String String) (now : String)
    (p : LogPtr) (s : Context × World) :
    ((Logger.post m now p s).2.heap p).fields =
      if (Logger.errs m s.1).length > 0 then
        (((s.2.heap p).fields.set "Status" (.int s.1.Writer.Status)).set "Errors"
          (.str (Logger.errs m s.1)))
      else (s.2.heap p).fields.set "Status" (.int s.1.Writer.Status) := by
  simp only [Logger.post, log.Infof]
  split <;> simp [log.WithField, World.store, ResponseWriter.Status]

/-- C2: the handler returned by `Logger` records the request, calls next once,
then records the outcome and writes one line. -/
theorem Logger_pre_next_post (m : List GinError → Except String String) (now : String)
    (next : HandleFunc) (ctx : Context) (w : World) :
    let p := w.nextPtr
    let s1 := (Logger.pre (ctx, w)).1
    let s2 := next s1
    let r := Logger.run m now next (ctx, w)
    (s1.1.Get logKey = some (.logPtr p) ∧
      (s1.2.heap p).fields.lookup "ClientIP" = some (.str ctx.ClientIP) ∧
      (s1.2.heap p).fields.lookup "RequestMethod" = some (.str ctx.Request.Method) ∧
      (s1.2.heap p).fields.lookup "UserAgent" = some (.str ctx.Request.UserAgent) ∧
      (s1.2.heap p).fields.lookup "Uri" = some (.str ctx.Request.RequestURI)) ∧
    (∃ post, r.2 =
        [.logNew p,
         .withFields p [("ClientIP", .str ctx.ClientIP), ("RequestMethod", .str ctx.Request.Method),
           ("UserAgent", .str ctx.Request.UserAgent), ("Uri", .str ctx.Request.RequestURI)],
         .ctxSet logKey (.logPtr p), .next] ++ post ∧
      Event.next ∉ post ∧
      Event.status s2.1.Writer.Status ∈ post ∧
      Event.errors s2.1.Errors ∈ post ∧
      post.getLast? = some (.infof p now) ∧
      post.filter Event.isInfof = [.infof p now]) ∧
    r.1.1 = s2.1 ∧
    r.1.2.out = s2.2.out ++ [(r.1.2.heap p).line now] ∧
    (r.1.2.heap p).fields.lookup "Status" = some (.int s2.1.Writer.Status) := by
  intro p s1 s2 r
  have hr : r.1 = Logger.post m now p s2 := Logger_eq_pre_post m now next (ctx, w)
  refine ⟨⟨?_, ?_⟩, ?_, ?_, ?_, ?_⟩
  · exact Context.Get_Set_self ctx logKey _
  · have := Logger.pre_fields (ctx, w)
    simp only [s1, p]
    rw [this]
    simp [List.lookup]
  · by_cases h : (Logger.errs m s2.1).length > 0
    · refine ⟨[.status s2.1.Writer.Status, .withField p "Status" (.int s2.1.Writer.Status),
        .errors s2.1.Errors, .withField p "Errors" (.str (Logger.errs m s2.1)), .infof p now],
        ?_, ?_, ?_, ?_, ?_, ?_⟩
      · have ht := Logger.run_trace m now next (ctx, w)
        simp only [h, if_true] at ht
        simpa using ht
      · simp
      · simp
      · simp
      · simp
      · simp [Event.isInfof]
    · refine ⟨[.status s2.1.Writer.Status, .withField p "Status" (.int s2.1.Writer.Status),
        .errors s2.1.Errors, .infof p now], ?_, ?_, ?_, ?_, ?_, ?_⟩
      · have ht := Logger.run_trace m now next (ctx, w)
        simp only [h, if_false] at ht
        simpa using ht
      · simp
      · simp
      · simp
      · simp
      · simp [Event.isInfof]
  · rw [hr]; rfl
  · rw [hr]; exact Logger.post_out m now p s2
  · rw [hr, Logger.post_fields]
    split
    · rw [Fields.lookup_set_ne _ _ _ _ (by decide), Fields.lookup_set_self]
    · rw [Fields.lookup_set_self]

theorem String.length_pos_of_ne_empty (s : String) (h : s ≠ "") : s.length > 0 := by
  rcases s with ⟨l⟩
  cases l with
  | nil => exact absurd rfl h
  | cons a l => simp [String.length]

/-- C3 (amended): the line is always written; it carries the serialized errors under Errors
whenever serialization succeeds with a non-empty result. -/
theorem Logger_errors_field (m : List GinError → Except String String) (now : String)
    (next : HandleFunc) (ctx : Context) (w : World) :
    let p := w.nextPtr
    let s2 := next (Logger.pre (ctx, w)).1
    let r := Logger m now next (ctx, w)
    ∃ line, r.2.out = s2.2.out ++ [line] ∧ line.msg = now ∧
      (∀ es bs, s2.1.Errors = some es → m es = .ok bs → bs ≠ "" →
        line.fields.lookup "Errors" = some (.str bs)) ∧
      (∀ es e, s2.1.Errors = some es → m es = .error e →
        line.fields.lookup "Errors" = (s2.2.heap p).fields.lookup "Errors") := by
  intro p s2 r
  have hr : r = Logger.post m now p s2 := Logger_eq_pre_post m now next (ctx, w)
  refine ⟨((Logger.post m now p s2).2.heap p).line now, ?_, rfl, ?_, ?_⟩
  · rw [hr]; exact Logger.post_out m now p s2
  · intro es bs hes hm hbs
    have herrs : Logger.errs m s2.1 = bs := by simp [Logger.errs, hes, hm]
    have hpos : (Logger.errs m s2.1).length > 0 := by
      rw [herrs]; exact String.length_pos_of_ne_empty bs hbs
    simp only [Log.line]
    rw [Logger.post_fields, if_pos hpos, Fields.lookup_set_self, herrs]
  · intro es e hes hm
    have herrs : Logger.errs m s2.1 = "" := by simp [Logger.errs, hes, hm]
    have hpos : ¬ (Logger.errs m s2.1).length > 0 := by
      rw [herrs]; decide
    simp only [Log.line]
    rw [Logger.post_fields, if_neg hpos, Fields.lookup_set_ne _ _ _ _ (by decide)]

theorem Logger_errors_field_witness :
    ((recordError plainError) (Logger.pre (sampleContext, emptyWorld)).1).1.Errors =
        some [plainError] ∧
    sampleMarshalJSON [plainError] = .ok "[boom]" ∧
    ∃ line, (Logger sampleMarshalJSON "2026-01-01T00:00:00Z" (recordError plainError)
        (sampleContext, emptyWorld)).2.out = [] ++ [line] ∧
      line.fields.lookup "Errors" = some (.str "[boom]") := by
  obtain ⟨line, h1, _, h3, _⟩ := Logger_errors_field sampleMarshalJSON "2026-01-01T00:00:00Z"
    (recordError plainError) sampleContext emptyWorld
  exact ⟨rfl, rfl, line, h1, h3 [plainError] "[boom]" rfl rfl (by decide)⟩

theorem Logger_errors_field_counterexample :
    ((recordError funcError) (Logger.pre (sampleContext, emptyWorld)).1).1.Errors = some [funcError] ∧
    (Logger sampleMarshalJSON "2026-01-01T00:00:00Z" (recordError funcError)
        (sampleContext, emptyWorld)).2.out.map (fun l => l.fields.lookup "Errors") = [none] := by
  decide

/-- C8: the context that `Logger` hands to `ctx.Next()` carries the logger that `Logger`
created: `GetLogger` returns it there and on every later context whose key is unchanged,
without panic; it is the logger of the first and last action of `Logger` and of the line
written, and a field that a later handler adds through `GetLogger` is in that line. -/
theorem GetLogger_after_Logger (m : List GinError → Except String String) (now : String)
    (ctx : Context) (w : World) :
    ∃ s1 : Context × World,
      (∀ next : HandleFunc,
        (Logger.run m now next (ctx, w)).1.1 = (next s1).1 ∧
        (Logger.run m now next (ctx, w)).1.2.out = (next s1).2.out ++
          [((Logger.run m now next (ctx, w)).1.2.heap w.nextPtr).line now] ∧
        (Logger.run m now next (ctx, w)).2.head? = some (.logNew w.nextPtr) ∧
        (Logger.run m now next (ctx, w)).2.getLast? = some (.infof w.nextPtr now)) ∧
      GetLogger s1.1 s1.2 = .ok (w.nextPtr, s1.2) ∧
      (∀ c2 w2, c2.Get logKey = s1.1.Get logKey → GetLogger c2 w2 = .ok (w.nextPtr, w2)) ∧
      (∀ k v, k ≠ logKey → (s1.1.Set k v).Get logKey = s1.1.Get logKey) ∧
      (∀ k v, k ≠ "Status" → k ≠ "Errors" →
        (Logger.run m now (addField k v) (ctx, w)).1.2.out.getLast?.map
          (fun L => L.fields.lookup k) = some (some v)) := by
  have hget : (Logger.pre (ctx, w)).1.1.Get logKey = some (.logPtr w.nextPtr) :=
    Context.Get_Set_self ctx logKey _
  have hrun : ∀ next : HandleFunc, (Logger.run m now next (ctx, w)).1 =
      Logger.post m now w.nextPtr (next (Logger.pre (ctx, w)).1) :=
    fun next => Logger_eq_pre_post m now next (ctx, w)
  refine ⟨(Logger.pre (ctx, w)).1, ?_, ?_, ?_, ?_, ?_⟩
  · intro next
    refine ⟨?_, ?_, ?_, ?_⟩
    · rw [hrun next]
      rfl
    · rw [hrun next]
      exact Logger.post_out m now w.nextPtr _
    · simp only [Logger.run_trace]
      rfl
    · simp only [Logger.run_trace]
      split <;> simp
  · simp [GetLogger, hget]
  · intro c2 w2 h
    simp [GetLogger, h, hget]
  · intro k v hk
    exact Context.Get_Set_ne _ k logKey v (Ne.symm hk)
  · intro k v hk1 hk2
    have hadd : addField k v (Logger.pre (ctx, w)).1 =
        ((Logger.pre (ctx, w)).1.1, log.WithField w.nextPtr k v (Logger.pre (ctx, w)).1.2) := by
      simp [addField, GetLogger, hget]
    rw [hrun (addField k v), Logger.post_line, hadd]
    simp only [Option.map_some', Log.line]
    rw [Logger.post_fields]
    have hk1' : k ≠ "Status" := hk1
    have hk2' : k ≠ "Errors" := hk2
    have hf : ((log.WithField w.nextPtr k v (Logger.pre (ctx, w)).1.2).heap w.nextPtr).fields =
        ((Logger.pre (ctx, w)).1.2.heap w.nextPtr).fields.set k v := by
      simp [log.WithField, World.store]
    simp only [hf]
    split
    · rw [Fields.lookup_set_ne _ _ _ _ hk2', Fields.lookup_set_ne _ _ _ _ hk1',
        Fields.lookup_set_self]
    · rw [Fields.lookup_set_ne _ _ _ _ hk1', Fields.lookup_set_self]

theorem GetLogger_after_Logger_witness :
    "response" ≠ "Status" ∧ "response" ≠ "Errors" ∧
    (Logger.run sampleMarshalJSON "2026-01-01T00:00:00Z"
        (addField "response" (.helloResponse { Reply := "hi" }))
        (sampleContext, emptyWorld)).1.2.out.getLast?.map
      (fun L => L.fields.lookup "response") = some (some (.helloResponse { Reply := "hi" })) := by
  obtain ⟨_, _, _, _, _, h⟩ :=
    GetLogger_after_Logger sampleMarshalJSON "2026-01-01T00:00:00Z" sampleContext emptyWorld
  exact ⟨by decide, by decide, h "response" (.helloResponse { Reply := "hi" })
    (by decide) (by decide)⟩

theorem Run_cons {σ : Type} (e : MiddlewareEntry σ) (es : List (MiddlewareEntry σ))
    (handler : σ → σ) : Run (e :: es) handler = e (Run es handler) := rfl

theorem Run_enterExit_from (names : List String) (log : List String) :
    Run (names.map enterExit) terminalH log =
      log ++ names.map (fun n => n ++ "-enter") ++ ["H"] ++
        names.reverse.map (fun n => n ++ "-exit") := by
  induction names generalizing log with
  | nil => simp [Run, terminalH]
  | cons n ns ih =>
    rw [List.map_cons, Run_cons]
    show Run (ns.map enterExit) terminalH (log ++ [n ++ "-enter"]) ++ [n ++ "-exit"] = _
    rw [ih]
    simp

/-- C1: middlewares that log on entry and exit around a terminal handler produce the entries
in registration order, the handler once, and the exits in reverse order; `Logger` is such a
wrapper: its statements after `ctx.Next()` run on what the handler returns. -/
theorem Run_enterExit_LIFO (names : List String) (log : List String) :
    Run (names.map enterExit) terminalH [] =
      names.map (fun n => n ++ "-enter") ++ ["H"] ++ names.reverse.map (fun n => n ++ "-exit") ∧
    Run (names.map enterExit) terminalH log =
      log ++ names.map (fun n => n ++ "-enter") ++ ["H"] ++
        names.reverse.map (fun n => n ++ "-exit") ∧
    Run [enterExit "A", enterExit "B", enterExit "C"] terminalH [] =
      ["A-enter", "B-enter", "C-enter", "H", "C-exit", "B-exit", "A-exit"] ∧
    (∀ (m : List GinError → Except String String) (now : String) (handler : HandleFunc)
        (s : Context × World),
      Run [Logger m now] handler s =
        Logger.post m now (Logger.pre s).2 (handler (Logger.pre s).1)) := by
  refine ⟨?_, Run_enterExit_from names log, by decide, ?_⟩
  · simpa using Run_enterExit_from names []
  · intro m now handler s
    exact Logger_eq_pre_post m now handler s

/-- C4: classification depends on the input type only; the empty input type gives a query
bound to GET, any other input type a command bound to POST. -/
theorem classify_by_input_type (d : ServiceMethodDescriptor) :
    (d.inputType = .empty → classify d = .query ∧ (classify d).verb = .HttpGet) ∧
    (d.inputType ≠ .empty → classify d = .command ∧ (classify d).verb = .HttpPost) ∧
    (∀ d2 : ServiceMethodDescriptor, d2.inputType = d.inputType → classify d2 = classify d) ∧
    (classify Hello.sayHelloAnonymous).verb = .HttpGet ∧
    (classify Hello.sayHello).verb = .HttpPost := by
  refine ⟨?_, ?_, ?_, rfl, rfl⟩
  · intro h
    simp [classify, h, MethodClass.verb]
  · intro h
    cases hd : d.inputType with
    | empty => exact absurd hd h
    | message n => simp [classify, hd, MethodClass.verb]
  · intro d2 h
    simp [classify, h]

theorem classify_by_input_type_witness :
    Hello.sayHelloAnonymous.inputType = .empty ∧
    Hello.sayHello.inputType ≠ .empty ∧
    (classify Hello.sayHelloAnonymous = .query ∧
      (classify Hello.sayHelloAnonymous).verb = .HttpGet) ∧
    (classify Hello.sayHello = .command ∧ (classify Hello.sayHello).verb = .HttpPost) :=
  ⟨rfl, by decide, (classify_by_input_type Hello.sayHelloAnonymous).1 rfl,
   (classify_by_input_type Hello.sayHello).2.1 (by decide)⟩

theorem Char.not_isUpper_of_isLower (c : Char) (h : c.isLower = true) : c.isUpper = false := by
  simp only [Char.isLower, Char.isUpper, Bool.and_eq_true, decide_eq_true_eq] at h ⊢
  rw [Bool.and_eq_false_iff]
  right
  simp only [decide_eq_false_iff_not]
  intro h2
  have h1 := h.1
  have e1 : (97 : UInt32) ≤ 90 := UInt32.le_trans h1 h2
  exact absurd e1 (by decide)

theorem splitCase_lower_run (r cur tail : List Char) (hr : ∀ y ∈ r, y.isLower = true)
    (hcur : cur ≠ []) : splitCase cur (r ++ tail) = splitCase (r.reverse ++ cur) tail := by
  induction r generalizing cur with
  | nil => simp
  | cons y r ih =>
    cases cur with
    | nil => exact absurd rfl hcur
    | cons p ps =>
      have hy : y.isUpper = false :=
        Char.not_isUpper_of_isLower y (hr y (List.mem_cons_self y r))
      have hstep : splitCase (p :: ps) (y :: r ++ tail) = splitCase (y :: p :: ps) (r ++ tail) := by
        simp [splitCase, hy]
      rw [hstep, ih (y :: p :: ps) (fun z hz => hr z (List.mem_cons_of_mem y hz)) (by simp)]
      simp

theorem splitCase_camel (c : Char) (w : List Char) (ws : List (List Char))
    (hw : isCamelWord (c :: w) = true) (hws : ∀ v ∈ ws, isCamelWord v = true) :
    splitCase [c] (w ++ ws.flatten) = (c :: w) :: ws := by
  induction ws generalizing c w with
  | nil =>
    cases w with
    | nil => simp [isCamelWord] at hw
    | cons x r =>
      simp only [isCamelWord, Bool.and_eq_true, List.all_eq_true] at hw
      rw [List.flatten_nil, splitCase_lower_run (x :: r) [c] [] hw.2 (by simp)]
      cases h : (x :: r).reverse ++ [c] with
      | nil => simp at h
      | cons p ps =>
        have : (p :: ps).reverse = c :: x :: r := by
          rw [← h]; simp
        simp [splitCase, this]
  | cons v vs ih =>
    cases w with
    | nil => simp [isCamelWord] at hw
    | cons x r =>
      have hv := hws v (List.mem_cons_self v vs)
      cases v with
      | nil => simp [isCamelWord] at hv
      | cons c2 w2 =>
        have hw2 := hw
        simp only [isCamelWord, Bool.and_eq_true, List.all_eq_true] at hw2
        have hc2 : c2.isUpper = true := by
          cases w2 with
          | nil => simp [isCamelWord] at hv
          | cons x2 r2 =>
            simp only [isCamelWord, Bool.and_eq_true] at hv
            exact hv.1
        rw [List.flatten_cons, splitCase_lower_run (x :: r) [c] _ hw2.2 (by simp)]
        cases h : (x :: r).reverse with
        | nil => simp at h
        | cons p ps =>
          have hp : p.isLower = true := by
            apply hw2.2
            have : p ∈ (x :: r).reverse := by rw [h]; exact List.mem_cons_self p ps
            exact List.mem_reverse.mp this
          have hrev : (p :: (ps ++ [c])).reverse = c :: x :: r := by
            have : p :: (ps ++ [c]) = (x :: r).reverse ++ [c] := by rw [h]; rfl
            rw [this]; simp
          have hstep : splitCase (p :: ps ++ [c]) (c2 :: w2 ++ vs.flatten) =
              (p :: (ps ++ [c])).reverse :: splitCase [c2] (w2 ++ vs.flatten) := by
            simp [splitCase, hp, hc2]
          rw [hstep, hrev, ih c2 w2 hv (fun u hu => hws u (List.mem_cons_of_mem _ hu))]

theorem splitCase_words (ws : List (List Char)) (hws : ∀ v ∈ ws, isCamelWord v = true) :
    splitCase [] ws.flatten = ws := by
  cases ws with
  | nil => simp [splitCase]
  | cons v vs =>
    have hv := hws v (List.mem_cons_self v vs)
    cases v with
    | nil => simp [isCamelWord] at hv
    | cons c w =>
      rw [List.flatten_cons]
      show splitCase [] (c :: (w ++ vs.flatten)) = _
      have : splitCase [] (c :: (w ++ vs.flatten)) = splitCase [c] (w ++ vs.flatten) := by
        simp [splitCase]
      rw [this]
      exact splitCase_camel c w vs hv (fun u hu => hws u (List.mem_cons_of_mem _ hu))

theorem kebab_words (ws : List (List Char)) (hws : ∀ v ∈ ws, isCamelWord v = true) :
    kebab (String.mk ws.flatten) =
      "-".intercalate (ws.map (fun w => String.mk (w.map Char.toLower))) := by
  simp only [kebab]
  rw [splitCase_words ws hws]

/-- C5 (amended): the derived path is the group path, a slash, the kebab-case service name, a
slash and the kebab-case method name; kebab-case puts a hyphen between the camel-case words
and lowercases them; for the service Hello the paths are the group path followed by
/hello/say-hello-anonymous and /hello/say-hello. -/
theorem derivePath_spec (group : String) (d : ServiceMethodDescriptor) (ws : List (List Char)) :
    derivePath group d = group ++ "/" ++ kebab d.serviceName ++ "/" ++ kebab d.methodName ∧
    ((∀ v ∈ ws, isCamelWord v = true) →
      kebab (String.mk ws.flatten) =
        "-".intercalate (ws.map (fun w => String.mk (w.map Char.toLower)))) ∧
    (∀ d2 : ServiceMethodDescriptor, d2.serviceName = d.serviceName →
      d2.methodName = d.methodName → derivePath group d2 = derivePath group d) ∧
    derivePath group Hello.sayHelloAnonymous = group ++ "/hello/say-hello-anonymous" ∧
    derivePath group Hello.sayHello = group ++ "/hello/say-hello" ∧
    derivePath "" Hello.sayHelloAnonymous = "/hello/say-hello-anonymous" ∧
    derivePath "/hi" Hello.sayHelloAnonymous = "/hi/hello/say-hello-anonymous" := by
  have k1 : kebab "Hello" = "hello" := by decide
  have k2 : kebab "SayHelloAnonymous" = "say-hello-anonymous" := by decide
  have k3 : kebab "SayHello" = "say-hello" := by decide
  have e1 : ("/" ++ "hello" ++ "/" ++ "say-hello-anonymous" : String) =
      "/hello/say-hello-anonymous" := by decide
  have e2 : ("/" ++ "hello" ++ "/" ++ "say-hello" : String) = "/hello/say-hello" := by decide
  refine ⟨rfl, kebab_words ws, ?_, ?_, ?_, by decide, by decide⟩
  · intro d2 h1 h2
    simp [derivePath, h1, h2]
  · simp only [derivePath, Hello.sayHelloAnonymous, k1, k2]
    rw [← e1]
    simp [String.append_assoc]
  · simp only [derivePath, Hello.sayHello, k1, k3]
    rw [← e2]
    simp [String.append_assoc]

theorem derivePath_spec_witness :
    (∀ v ∈ ["Say".data, "Hello".data, "Anonymous".data], isCamelWord v = true) ∧
    kebab (String.mk ["Say".data, "Hello".data, "Anonymous".data].flatten) =
      "-".intercalate (["Say".data, "Hello".data, "Anonymous".data].map
        (fun w => String.mk (w.map Char.toLower))) ∧
    "-".intercalate (["Say".data, "Hello".data, "Anonymous".data].map
        (fun w => String.mk (w.map Char.toLower))) = "say-hello-anonymous" :=
  ⟨by decide,
   (derivePath_spec "/hi" Hello.sayHello ["Say".data, "Hello".data, "Anonymous".data]).2.1
     (by decide),
   by decide⟩

theorem derivePath_formula_counterexample :
    derivePath "/" Hello.sayHelloAnonymous = "//hello/say-hello-anonymous" ∧
    derivePath "/" Hello.sayHelloAnonymous ≠ "/hello/say-hello-anonymous" ∧
    ¬ ∃ f : String → String → String → String,
      (∀ g s n, f g s n = g ++ "/" ++ kebab s ++ "/" ++ kebab n) ∧
      f "/" "Hello" "SayHelloAnonymous" = "/hello/say-hello-anonymous" := by
  refine ⟨by decide, by decide, ?_⟩
  rintro ⟨f, hf, he⟩
  rw [hf] at he
  exact absurd he (by decide)

/-- C6: a POST to /hi/hi resolves to the controller, which answers with one JSON response,
status 200 and the reply ha, whatever the request holds. -/
theorem post_hi_hi (m : List GinError → Except String String) (now : String)
    (adapter : ServiceMethodDescriptor → HandleFunc) (ctx : Context) (w : World) :
    ((main m now adapter).Resolve "/hi/hi" .HttpPost).map (fun e => e.handler) =
      some TestController.Handle ∧
    (TestController.Handle (ctx, w)).1.Writer.written = ctx.Writer.written ++
      [{ code := 200, contentType := "application/json",
         body := .helloResponse { Reply := "ha" } }] ∧
    (TestController.Handle (ctx, w)).1.Writer.Status = 200 ∧
    (TestController.Handle (ctx, w)).1.Request = ctx.Request ∧
    (TestController.Handle (ctx, w)).2.out = w.out ∧
    ∃ r, (main m now adapter).Serve .HttpPost "/hi/hi" (ctx, w) = some r ∧
      r.1.Writer.written = ctx.Writer.written ++
        [{ code := 200, contentType := "application/json",
           body := .helloResponse { Reply := "ha" } }] ∧
      r.1.Writer.Status = 200 := by
  refine ⟨rfl, rfl, rfl, rfl, rfl, ?_⟩
  refine ⟨Logger m now TestController.Handle (ctx, w), rfl, ?_, ?_⟩
  · rw [Logger_eq_pre_post, Logger.post_ctx]
    simp [TestController.Handle, Context.JSON, Logger.pre, Context.Set]
  · rw [Logger_eq_pre_post, Logger.post_ctx]
    rfl

/-- C9: `SayHelloAnonymous` starts one span, finishes it once before it returns, and returns
the response hoho with success status and no error. -/
theorem SayHelloAnonymous_span (getLogger : GoContext → World → LogPtr × World)
    (ctx : GoContext) (w : World) (t : Tracer) :
    (Hello.SayHelloAnonymous getLogger ctx (w, t)).1 =
      ({ Reply := "hoho", Status := .STATUS_SUCCESS }, none) ∧
    (Hello.SayHelloAnonymous getLogger ctx (w, t)).2.2.events =
      t.events ++ [.start t.nextSpan "sayHello", .finish t.nextSpan] ∧
    ((Hello.SayHelloAnonymous getLogger ctx (w, t)).2.2.events.drop t.events.length).count
      (.finish t.nextSpan) = 1 := by
  refine ⟨rfl, ?_, ?_⟩
  · simp [Hello.SayHelloAnonymous, StartSpanFromContext, runDeferred, Span.Finish]
  · simp [Hello.SayHelloAnonymous, StartSpanFromContext, runDeferred, Span.Finish]

/-! ## Two requests over one world -/

theorem Logger.pre_nextPtr (s : Context × World) :
    (Logger.pre s).1.2.nextPtr = s.2.nextPtr + 1 := rfl

theorem Logger.pre_heap_self (s : Context × World) :
    (Logger.pre s).1.2.heap s.2.nextPtr =
      { formatter := .json,
        fields := [("Uri", Any.str s.1.Request.RequestURI),
          ("UserAgent", Any.str s.1.Request.UserAgent),
          ("RequestMethod", Any.str s.1.Request.Method), ("ClientIP", Any.str s.1.ClientIP)] } := by
  simp [Logger.pre, log.New, log.WithFields, World.store, Fields.set]

theorem Logger.pre_heap_other (s : Context × World) (q : LogPtr) (h : q ≠ s.2.nextPtr) :
    (Logger.pre s).1.2.heap q = s.2.heap q := by
  simp [Logger.pre, log.New, log.WithFields, World.store, h]

theorem Logger.pre_ownLogger (s : Context × World) :
    ownLogger (Logger.pre s).1.1 = some s.2.nextPtr := by
  have h : (Logger.pre s).1.1.Get logKey = some (.logPtr s.2.nextPtr) :=
    Context.Get_Set_self s.1 logKey _
  simp [ownLogger, h]

theorem Logger.post_nextPtr (m : List GinError → Except String String) (now : String)
    (p : LogPtr) (s : Context × World) : (Logger.post m now p s).2.nextPtr = s.2.nextPtr := by
  simp only [Logger.post, log.Infof]
  split <;> simp [log.WithField, World.store]

theorem Logger.post_heap_other (m : List GinError → Except String String) (now : String)
    (p q : LogPtr) (s : Context × World) (h : q ≠ p) :
    (Logger.post m now p s).2.heap q = s.2.heap q := by
  simp only [Logger.post, log.Infof]
  split <;> simp [log.WithField, World.store, h]

theorem Logger.post_heap_self (m : List GinError → Except String String) (now : String)
    (p : LogPtr) (c : Context) (w w2 : World) (h : w.heap p = w2.heap p) :
    (Logger.post m now p (c, w)).2.heap p = (Logger.post m now p (c, w2)).2.heap p := by
  simp only [Logger.post, log.Infof]
  split <;> simp [log.WithField, World.store, h]

theorem Task.step_pc0 (m : List GinError → Except String String) (now : String) (t : Task)
    (w : World) (h : t.pc = 0) :
    t.step m now w =
      ({ t with pc := 1, ctx := (Logger.pre (t.ctx, w)).1.1, logger := (Logger.pre (t.ctx, w)).2 },
       (Logger.pre (t.ctx, w)).1.2) := by
  simp [Task.step, h]

theorem Task.step_pc1 (m : List GinError → Except String String) (now : String) (t : Task)
    (w : World) (h : t.pc = 1) :
    t.step m now w = ({ t with pc := 2, ctx := (t.handler (t.ctx, w)).1 }, (t.handler (t.ctx, w)).2) := by
  simp [Task.step, h]

theorem Task.step_pc2 (m : List GinError → Except String String) (now : String) (t : Task)
    (w : World) (h : t.pc = 2) :
    t.step m now w =
      ({ t with pc := 3, ctx := (Logger.post m now t.logger (t.ctx, w)).1,
                line := (Logger.post m now t.logger (t.ctx, w)).2.out.getLast? },
       (Logger.post m now t.logger (t.ctx, w)).2) := by
  simp [Task.step, h]

theorem Task.step_done (m : List GinError → Except String String) (now : String) (t : Task)
    (w : World) (h : 3 ≤ t.pc) : t.step m now w = (t, w) := by
  unfold Task.step
  split
  · omega
  · omega
  · omega
  · rfl

theorem Task.pc_cases (t : Task) : t.pc = 0 ∨ t.pc = 1 ∨ t.pc = 2 ∨ 3 ≤ t.pc := by omega

theorem Logger.errs_eq (m : List GinError → Except String String) (c : Context) :
    Logger.errs m c = Logger.errsOf m c.Errors := by
  unfold Logger.errs Logger.errsOf
  cases c.Errors with
  | none => rfl
  | some es => rfl

theorem Logger.post_heap_eq (m : List GinError → Except String String) (now : String)
    (p : LogPtr) (c : Context) (w : World) :
    ((Logger.post m now p (c, w)).2.heap p).line now =
      Logger.entry m now
        { status := c.Writer.Status, errors := c.Errors, log := w.heap p } := by
  simp only [Logger.post, log.Infof, Logger.entry, Logger.errs_eq]
  split <;> simp [log.WithField, World.store, Log.line, ResponseWriter.Status]

theorem Logger.post_line_entry (m : List GinError → Except String String) (now : String)
    (p : LogPtr) (c : Context) (w : World) :
    (Logger.post m now p (c, w)).2.out.getLast? =
      some (Logger.entry m now
        { status := c.Writer.Status, errors := c.Errors, log := w.heap p }) := by
  rw [Logger.post_line, Logger.post_heap_eq]

theorem Logger.entry_status (m : List GinError → Except String String) (now : String)
    (o : Outcome) : (Logger.entry m now o).fields.lookup "Status" = some (.int o.status) := by
  simp only [Logger.entry]
  split
  · rw [Fields.lookup_set_ne _ _ _ _ (by decide), Fields.lookup_set_self]
  · rw [Fields.lookup_set_self]

theorem Logger.entry_errors (m : List GinError → Except String String) (now : String)
    (o : Outcome) (es : List GinError) (bs : String) (h1 : o.errors = some es)
    (h2 : m es = .ok bs) (h3 : bs ≠ "") :
    (Logger.entry m now o).fields.lookup "Errors" = some (.str bs) := by
  have herrs : Logger.errsOf m o.errors = bs := by simp [Logger.errsOf, h1, h2]
  have hpos : (Logger.errsOf m o.errors).length > 0 := by
    rw [herrs]; exact String.length_pos_of_ne_empty bs h3
  simp only [Logger.entry]
  rw [if_pos hpos, Fields.lookup_set_self, herrs]

theorem Logger.entry_no_errors (m : List GinError → Except String String) (now : String)
    (o : Outcome) (h : Logger.errsOf m o.errors = "") :
    (Logger.entry m now o).fields.lookup "Errors" = o.log.fields.lookup "Errors" := by
  have hpos : ¬ (Logger.errsOf m o.errors).length > 0 := by
    rw [h]; decide
  simp only [Logger.entry]
  rw [if_neg hpos, Fields.lookup_set_ne _ _ _ _ (by decide)]

/-- A step of a request leaves every allocated logger other than its own as it is, frees no
address, only adds to the output, and keeps the request well-formed. -/
theorem Task.step_frame (m : List GinError → Except String String) (now : String) (t : Task)
    (w : World) (hwf : t.WF w) :
    (t.step m now w).1.WF (t.step m now w).2 ∧
    w.nextPtr ≤ (t.step m now w).2.nextPtr ∧
    (1 ≤ t.pc → (t.step m now w).1.logger = t.logger) ∧
    (t.pc = 0 → (t.step m now w).1.logger = w.nextPtr) ∧
    (∀ q, q < w.nextPtr → (1 ≤ t.pc → q ≠ t.logger) → (t.step m now w).2.heap q = w.heap q) ∧
    (∀ L, L ∈ w.out → L ∈ (t.step m now w).2.out) := by
  rcases t.pc_cases with h | h | h | h
  · rw [Task.step_pc0 m now t w h]
    refine ⟨⟨?_, ?_, hwf.framed⟩, ?_, ?_, ?_, ?_, ?_⟩
    · intro _
      exact Nat.lt_succ_self w.nextPtr
    · intro _
      exact Logger.pre_ownLogger (t.ctx, w)
    · exact Nat.le_succ w.nextPtr
    · intro h1; omega
    · intro _; rfl
    · intro q hq _
      exact Logger.pre_heap_other (t.ctx, w) q (Nat.ne_of_lt hq)
    · intro L hL
      exact hL
  · rw [Task.step_pc1 m now t w h]
    have hown := hwf.own h
    have hb := hwf.below (by omega)
    refine ⟨⟨?_, ?_, hwf.framed⟩, ?_, ?_, ?_, ?_, ?_⟩
    · intro _
      exact Nat.lt_of_lt_of_le hb (hwf.framed.alloc t.ctx w)
    · intro h2
      simp at h2
    · exact hwf.framed.alloc t.ctx w
    · intro _; rfl
    · intro h0; omega
    · intro q hq hne
      exact hwf.framed.heap t.ctx w t.logger q hown hb hq (hne (by omega))
    · intro L hL
      exact hwf.framed.out t.ctx w L hL
  · rw [Task.step_pc2 m now t w h]
    have hb := hwf.below (by omega)
    refine ⟨⟨?_, ?_, hwf.framed⟩, ?_, ?_, ?_, ?_, ?_⟩
    · intro _
      show t.logger < (Logger.post m now t.logger (t.ctx, w)).2.nextPtr
      rw [Logger.post_nextPtr]
      exact hb
    · intro h2
      simp at h2
    · rw [Logger.post_nextPtr]
    · intro _; rfl
    · intro h0; omega
    · intro q _ hne
      exact Logger.post_heap_other m now t.logger q (t.ctx, w) (hne (by omega))
    · intro L hL
      show L ∈ (Logger.post m now t.logger (t.ctx, w)).2.out
      rw [Logger.post_out]
      exact List.mem_append_left _ hL
  · rw [Task.step_done m now t w h]
    refine ⟨hwf, Nat.le_refl _, ?_, ?_, ?_, ?_⟩
    · intro _; rfl
    · intro h0; omega
    · intro q _ _; rfl
    · intro L hL
      exact hL

theorem Task.WF_mono (t : Task) (w w2 : World) (h : t.WF w) (hle : w.nextPtr ≤ w2.nextPtr) :
    t.WF w2 :=
  ⟨fun h1 => Nat.lt_of_lt_of_le (h.below h1) hle, h.own, h.framed⟩

theorem Task.step_pc (m : List GinError → Except String String) (now : String) (t : Task)
    (w : World) : (t.step m now w).1.pc = min 3 (t.pc + 1) ∨
      (3 ≤ t.pc ∧ (t.step m now w).1.pc = t.pc) := by
  rcases t.pc_cases with h | h | h | h
  · left; rw [Task.step_pc0 m now t w h]; simp [h]
  · left; rw [Task.step_pc1 m now t w h]; simp [h]
  · left; rw [Task.step_pc2 m now t w h]; simp [h]
  · right; rw [Task.step_done m now t w h]; exact ⟨h, rfl⟩

/-- The step of a request keeps its invariant. -/
theorem Task.Inv_step (m : List GinError → Except String String) (now : String) (c : Context)
    (g : Context → Log → Outcome) (t : Task) (w : World) (hwf : t.WF w)
    (hinv : t.Inv m now c g w) :
    (t.step m now w).1.Inv m now c g (t.step m now w).2 := by
  rcases t.pc_cases with h | h | h | h
  · rw [Task.step_pc0 m now t w h]
    have hc := hinv.at0 h
    refine ⟨hinv.isLocal, ?_, ?_, ?_, ?_⟩
    · intro h0
      simp at h0
    · intro _
      refine ⟨?_, ?_⟩
      · show (Logger.pre (t.ctx, w)).1.1 = c.Set logKey (.logPtr (Logger.pre (t.ctx, w)).2)
        rw [Logger.pre_ctx, Logger.pre_logger, hc]
      · show (Logger.pre (t.ctx, w)).1.2.heap (Logger.pre (t.ctx, w)).2 = Logger.fresh c
        rw [Logger.pre_logger]
        have := Logger.pre_heap_self (t.ctx, w)
        simp only at this
        rw [this, hc]
        rfl
    · intro h2
      simp at h2
    · intro h3
      simp at h3
  · rw [Task.step_pc1 m now t w h]
    have h1 := hinv.at1 h
    have hown := hwf.own h
    have hb := hwf.below (by omega)
    have hloc := hinv.isLocal t.ctx w t.logger hown hb
    refine ⟨hinv.isLocal, ?_, ?_, ?_, ?_⟩
    · intro h0
      simp at h0
    · intro h0
      simp at h0
    · intro _
      show g (c.Set logKey (.logPtr t.logger)) (Logger.fresh c) = _
      rw [← h1.1, ← h1.2]
      exact hloc
    · intro h3
      simp at h3
  · rw [Task.step_pc2 m now t w h]
    have h2 := hinv.at2 h
    refine ⟨hinv.isLocal, ?_, ?_, ?_, ?_⟩
    · intro h0
      simp at h0
    · intro h0
      simp at h0
    · intro h0
      simp at h0
    · intro _
      refine ⟨Logger.entry m now (g (c.Set logKey (.logPtr t.logger)) (Logger.fresh c)),
        ?_, ?_, rfl, ?_, ?_⟩
      · show (Logger.post m now t.logger (t.ctx, w)).2.out.getLast? = _
        rw [Logger.post_line_entry, h2]
      · show _ ∈ (Logger.post m now t.logger (t.ctx, w)).2.out
        rw [Logger.post_out, Logger.post_heap_eq, h2]
        simp
      · rw [h2]
        rfl
      · rw [h2]
        rfl
  · rw [Task.step_done m now t w h]
    exact hinv

/-- The invariant of a request is kept when the world changes elsewhere. -/
theorem Task.Inv_frame (m : List GinError → Except String String) (now : String) (c : Context)
    (g : Context → Log → Outcome) (t : Task) (w w2 : World) (hinv : t.Inv m now c g w)
    (hheap : 1 ≤ t.pc → w2.heap t.logger = w.heap t.logger)
    (hout : ∀ L, L ∈ w.out → L ∈ w2.out) : t.Inv m now c g w2 := by
  refine ⟨hinv.isLocal, hinv.at0, ?_, ?_, ?_⟩
  · intro h1
    have := hinv.at1 h1
    exact ⟨this.1, by rw [hheap (by omega)]; exact this.2⟩
  · intro h2
    rw [hheap (by omega)]
    exact hinv.at2 h2
  · intro h3
    obtain ⟨L, hL, hmem, rest⟩ := hinv.at3 h3
    exact ⟨L, hL, hout L hmem, rest⟩

theorem Sys.step_task_self (m : List GinError → Except String String) (now : String) (s : Sys)
    (k : Bool) : ((s.step m now k).task k) = ((s.task k).step m now s.world).1 := by
  simp [Sys.step]

theorem Sys.step_task_other (m : List GinError → Except String String) (now : String) (s : Sys)
    (k j : Bool) (h : j ≠ k) : ((s.step m now k).task j) = s.task j := by
  simp [Sys.step, h]

theorem Sys.step_world (m : List GinError → Except String String) (now : String) (s : Sys)
    (k : Bool) : (s.step m now k).world = ((s.task k).step m now s.world).2 := rfl

/-- The invariant of two requests is kept by a step of either request. -/
theorem Sys.Inv.step (m : List GinError → Except String String) (now : String) (i k : Bool)
    (c : Context) (g : Context → Log → Outcome) (s : Sys) (h : Sys.Inv m now i c g s) :
    Sys.Inv m now i c g (s.step m now k) := by
  have hij : (!i) ≠ i := by cases i <;> decide
  have hik : i ≠ !i := Ne.symm hij
  obtain ⟨hwf', hle, hlog1, hlog0, hheap, hout⟩ :=
    Task.step_frame m now (s.task k) s.world (h.wf k)
  have hwfAll : ∀ j, ((s.step m now k).task j).WF (s.step m now k).world := by
    intro j
    by_cases hj : j = k
    · subst hj
      rw [Sys.step_task_self, Sys.step_world]
      exact hwf'
    · rw [Sys.step_task_other _ _ _ _ _ hj, Sys.step_world]
      exact Task.WF_mono _ _ _ (h.wf j) hle
  by_cases hk : k = i
  · subst hk
    refine ⟨hwfAll, ?_, ?_⟩
    · rw [Sys.step_task_self, Sys.step_task_other _ _ _ _ _ hij]
      intro _ hj
      have hjb := (h.wf (!k)).below hj
      rcases Nat.eq_zero_or_pos (s.task k).pc with h0 | hpos
      · rw [hlog0 h0]
        exact Ne.symm (Nat.ne_of_lt hjb)
      · rw [hlog1 hpos]
        exact h.apart hpos hj
    · rw [Sys.step_task_self, Sys.step_world]
      exact Task.Inv_step m now c g _ _ (h.wf k) h.inv
  · have hk2 : k = !i := by cases i <;> cases k <;> simp_all
    subst hk2
    refine ⟨hwfAll, ?_, ?_⟩
    · rw [Sys.step_task_other _ _ _ _ _ hik, Sys.step_task_self]
      intro h1 _
      have hb := (h.wf i).below h1
      rcases Nat.eq_zero_or_pos (s.task (!i)).pc with h0 | hpos
      · rw [hlog0 h0]
        exact Nat.ne_of_lt hb
      · rw [hlog1 hpos]
        exact h.apart h1 hpos
    · rw [Sys.step_task_other _ _ _ _ _ hik, Sys.step_world]
      refine Task.Inv_frame m now c g _ _ _ h.inv ?_ hout
      intro h1
      exact hheap _ ((h.wf i).below h1) (fun hj => h.apart h1 hj)

theorem Sys.Inv.run (m : List GinError → Except String String) (now : String) (i : Bool)
    (c : Context) (g : Context → Log → Outcome) (sched : List Bool) (s : Sys)
    (h : Sys.Inv m now i c g s) : Sys.Inv m now i c g (Sys.run m now sched s) := by
  induction sched generalizing s with
  | nil => exact h
  | cons k ks ih => exact ih _ (Sys.Inv.step m now i k c g s h)

/-- A request advances by one program counter at each of its steps, up to the end. -/
theorem Sys.run_pc (m : List GinError → Except String String) (now : String) (i : Bool)
    (sched : List Bool) (s : Sys) :
    ((Sys.run m now sched s).task i).pc = min 3 ((s.task i).pc + sched.count i) ∨
      (3 ≤ (s.task i).pc ∧ ((Sys.run m now sched s).task i).pc = (s.task i).pc) := by
  induction sched generalizing s with
  | nil =>
    rcases (s.task i).pc_cases with h | h | h | h
    · left; simp [Sys.run, h]
    · left; simp [Sys.run, h]
    · left; simp [Sys.run, h]
    · right; exact ⟨h, rfl⟩
  | cons k ks ih =>
    have hrun : Sys.run m now (k :: ks) s = Sys.run m now ks (s.step m now k) := rfl
    rw [hrun]
    by_cases hk : i = k
    · subst hk
      have hcount : (i :: ks).count i = ks.count i + 1 := by simp
      rcases Task.step_pc m now (s.task i) s.world with hp | ⟨h3, hp⟩
      · rcases ih (s.step m now i) with h1 | ⟨h3, h1⟩
        · left
          rw [h1, Sys.step_task_self, hp, hcount]
          omega
        · rw [Sys.step_task_self] at h3 h1
          left
          rw [h1, hcount]
          omega
      · rcases ih (s.step m now i) with h1 | ⟨_, h1⟩
        · rw [Sys.step_task_self, hp] at h1
          left
          rw [h1, hcount]
          omega
        · rw [Sys.step_task_self, hp] at h1
          right
          exact ⟨h3, h1⟩
    · have hcount : (k :: ks).count i = ks.count i := by
        rw [List.count_cons]
        have : (k == i) = false := by
          cases i <;> cases k <;> simp_all
        simp [this]
      rcases ih (s.step m now k) with h1 | ⟨h3, h1⟩
      · rw [Sys.step_task_other _ _ _ _ _ hk] at h1
        left
        rw [h1, hcount]
      · rw [Sys.step_task_other _ _ _ _ _ hk] at h3 h1
        right
        exact ⟨h3, h1⟩

theorem Task.start_WF (c : Context) (h : HandleFunc) (w : World) (hc : Framed h) :
    (Task.start c h).WF w :=
  ⟨fun h1 => absurd h1 (by simp [Task.start]), fun h1 => absurd h1 (by simp [Task.start]), hc⟩

theorem Task.start_Inv (m : List GinError → Except String String) (now : String) (c : Context)
    (h : HandleFunc) (g : Context → Log → Outcome) (w : World) (hl : Local h g) :
    (Task.start c h).Inv m now c g w := by
  refine ⟨hl, fun _ => rfl, ?_, ?_, ?_⟩
  · intro h1
    simp [Task.start] at h1
  · intro h1
    simp [Task.start] at h1
  · intro h1
    simp [Task.start] at h1

theorem ownLogger_Get (c : Context) (p : LogPtr) (h : ownLogger c = some p) :
    c.Get logKey = some (.logPtr p) := by
  unfold ownLogger at h
  split at h
  · next q hq =>
    simp at h
    rw [hq, h]
  · simp at h

theorem Framed_recordError (e : GinError) : Framed (recordError e) :=
  ⟨fun _ _ => Nat.le_refl _, fun _ _ _ _ _ _ _ _ => rfl, fun _ _ _ hL => hL⟩

theorem Local_recordError (e : GinError) : Local (recordError e) (recordErrorLocal e) :=
  fun _ _ _ _ _ => rfl

theorem Framed_Handle : Framed TestController.Handle :=
  ⟨fun _ _ => Nat.le_refl _, fun _ _ _ _ _ _ _ _ => rfl, fun _ _ _ hL => hL⟩

theorem Local_Handle : Local TestController.Handle HandleLocal :=
  fun _ _ _ _ _ => rfl

theorem chatty_eq (c : Context) (w : World) (p : LogPtr) (h : ownLogger c = some p) :
    chatty (c, w) =
      (c.Set "aux" (.logPtr (log.Infof p "progress"
          (log.WithField p "note" (.str "working") w)).nextPtr),
       (log.New .text (log.Infof p "progress"
          (log.WithField p "note" (.str "working") w))).2) := by
  simp [chatty, GetLogger, ownLogger_Get c p h, log.New]

theorem Framed_chatty : Framed chatty := by
  refine ⟨?_, ?_, ?_⟩
  · intro c w
    cases hget : c.Get logKey with
    | none =>
      simp only [chatty, GetLogger, hget, log.New, log.Infof, log.WithField, World.store]
      exact Nat.le_succ_of_le (Nat.le_succ _)
    | some v =>
      cases v <;>
        simp [chatty, GetLogger, hget, log.New, log.Infof, log.WithField, World.store]
  · intro c w p q hown _ hq hne
    rw [chatty_eq c w p hown]
    have hq2 : q ≠ w.nextPtr := Nat.ne_of_lt hq
    simp [log.New, log.Infof, log.WithField, World.store, hne, hq2]
  · intro c w L hL
    cases hget : c.Get logKey with
    | none => simp [chatty, GetLogger, hget, log.New, log.Infof, log.WithField, World.store, hL]
    | some v =>
      cases v <;>
        simp [chatty, GetLogger, hget, log.New, log.Infof, log.WithField, World.store, hL]

theorem Local_chatty : Local chatty chattyLocal := by
  intro c w p hown hp
  rw [chatty_eq c w p hown]
  have hp2 : p ≠ w.nextPtr := Nat.ne_of_lt hp
  simp [chattyLocal, log.New, log.Infof, log.WithField, World.store, hp2, Context.Set,
    ResponseWriter.Status]

/-- C7 (amended): each of two requests gets a logger of its own, and under every schedule the
line a request writes is computed from its own context, its own handler and its own logger,
whatever the other request is: it is in the output, carries the status of its own context and,
when they serialize to a non-empty string, its own errors, and otherwise no Errors field
but the one its own handler left.  The handlers are framed, the own handler is local. -/
theorem Logger_isolation (m : List GinError → Except String String) (now : String)
    (sched : List Bool) (w0 : World) (i : Bool) (c : Context) (h : HandleFunc)
    (g : Context → Log → Outcome) (c1 : Context) (h1 : HandleFunc)
    (hF : Framed h) (hL : Local h g) (hF1 : Framed h1) :
    let S := Sys.run m now sched
      (Sys.start w0 (fun k => if k = i then Task.start c h else Task.start c1 h1))
    let o := g (c.Set logKey (.logPtr (S.task i).logger)) (Logger.fresh c)
    (S.task i).pc = min 3 (sched.count i) ∧
    (1 ≤ (S.task i).pc → 1 ≤ (S.task (!i)).pc → (S.task i).logger ≠ (S.task (!i)).logger) ∧
    ((S.task i).pc = 3 →
      (S.task i).line = some (Logger.entry m now o) ∧
      Logger.entry m now o ∈ S.world.out ∧
      o.status = (S.task i).ctx.Writer.Status ∧
      o.errors = (S.task i).ctx.Errors ∧
      (Logger.entry m now o).fields.lookup "Status" =
        some (.int (S.task i).ctx.Writer.Status) ∧
      (∀ es bs, (S.task i).ctx.Errors = some es → m es = .ok bs → bs ≠ "" →
        (Logger.entry m now o).fields.lookup "Errors" = some (.str bs)) ∧
      (Logger.errsOf m (S.task i).ctx.Errors = "" →
        (Logger.entry m now o).fields.lookup "Errors" = o.log.fields.lookup "Errors")) := by
  intro S o
  have hij : (!i) ≠ i := by cases i <;> decide
  have hstart : Sys.Inv m now i c g
      (Sys.start w0 (fun k => if k = i then Task.start c h else Task.start c1 h1)) := by
    refine ⟨?_, ?_, ?_⟩
    · intro j
      by_cases hj : j = i
      · simp only [Sys.start, hj, if_true]
        exact Task.start_WF c h w0 hF
      · simp only [Sys.start, hj, if_false]
        exact Task.start_WF c1 h1 w0 hF1
    · intro h1
      simp [Sys.start, Task.start] at h1
    · simp only [Sys.start, if_true]
      exact Task.start_Inv m now c h g w0 hL
  have hinv : Sys.Inv m now i c g S := Sys.Inv.run m now i c g sched _ hstart
  refine ⟨?_, hinv.apart, ?_⟩
  · rcases Sys.run_pc m now i sched
        (Sys.start w0 (fun k => if k = i then Task.start c h else Task.start c1 h1)) with h1 | h1
    · simpa [Sys.start, Task.start] using h1
    · have := h1.1
      simp [Sys.start, Task.start] at this
  · intro h3
    obtain ⟨L, hline, hmem, hL2, hst, herr⟩ := hinv.inv.at3 (by omega)
    have hLo : L = Logger.entry m now o := hL2
    subst hLo
    refine ⟨hline, hmem, hst, herr, ?_, ?_, ?_⟩
    · rw [Logger.entry_status]
      exact congrArg (fun x => some (Any.int x)) hst
    · intro es bs hes hm hbs
      exact Logger.entry_errors m now o es bs (herr.trans hes) hm hbs
    · intro he
      exact Logger.entry_no_errors m now o (by rw [herr]; exact he)

theorem Logger_isolation_witness :
    Framed (recordError plainError) ∧
    Local (recordError plainError) (recordErrorLocal plainError) ∧
    Framed chatty ∧ Local chatty chattyLocal ∧
    ((Sys.run sampleMarshalJSON "2026-01-01T00:00:00Z" [true, false, true, false, false, true]
        (Sys.start emptyWorld (fun k => if k = true then Task.start sampleContext
          (recordError plainError) else Task.start sampleContext chatty))).task true).pc = 3 ∧
    (Logger.entry sampleMarshalJSON "2026-01-01T00:00:00Z"
        (recordErrorLocal plainError
          (sampleContext.Set logKey (.logPtr
            ((Sys.run sampleMarshalJSON "2026-01-01T00:00:00Z"
              [true, false, true, false, false, true]
              (Sys.start emptyWorld (fun k => if k = true then Task.start sampleContext
                (recordError plainError) else Task.start sampleContext chatty))).task
              true).logger))
          (Logger.fresh sampleContext))).fields.lookup "Errors" = some (.str "[boom]") ∧
    ((Sys.run sampleMarshalJSON "2026-01-01T00:00:00Z" [true, false, true, false, false, true]
        (Sys.start emptyWorld (fun k => if k = true then Task.start sampleContext
          (recordError plainError) else Task.start sampleContext chatty))).task false).line.map
      (fun L => L.fields.lookup "Errors") = some none := by
  have hpc : ((Sys.run sampleMarshalJSON "2026-01-01T00:00:00Z"
      [true, false, true, false, false, true]
      (Sys.start emptyWorld (fun k => if k = true then Task.start sampleContext
        (recordError plainError) else Task.start sampleContext chatty))).task true).pc = 3 := by
    decide
  have h := (Logger_isolation sampleMarshalJSON "2026-01-01T00:00:00Z"
      [true, false, true, false, false, true] emptyWorld true sampleContext
      (recordError plainError) (recordErrorLocal plainError) sampleContext chatty
      (Framed_recordError plainError) (Local_recordError plainError) Framed_chatty).2.2 hpc
  exact ⟨Framed_recordError plainError, Local_recordError plainError, Framed_chatty,
    Local_chatty, hpc,
    h.2.2.2.2.2.1 [plainError] "[boom]" (by decide) rfl (by decide), by decide⟩

theorem Logger_isolation_counterexample :
    (((Sys.run sampleMarshalJSON "2026-01-01T00:00:00Z" [true, false, true, false, false, true]
        (Sys.start emptyWorld (fun k => if k = true then Task.start sampleContext
          (recordError funcError) else Task.start sampleContext TestController.Handle))).task
        true).ctx.Errors = some [funcError] ∧
      ((Sys.run sampleMarshalJSON "2026-01-01T00:00:00Z" [true, false, true, false, false, true]
        (Sys.start emptyWorld (fun k => if k = true then Task.start sampleContext
          (recordError funcError) else Task.start sampleContext TestController.Handle))).task
        true).line.map (fun L => L.fields.lookup "Errors") = some none) ∧
    (((Sys.run sampleMarshalJSON "2026-01-01T00:00:00Z" [true, false, false, true, true, false]
        (Sys.start emptyWorld (fun k => if k = true then Task.start sampleContext
          TestController.Handle else Task.start sampleContext (leak 0 plainError)))).task
        true).ctx.Errors = none ∧
      ((Sys.run sampleMarshalJSON "2026-01-01T00:00:00Z" [true, false, false, true, true, false]
        (Sys.start emptyWorld (fun k => if k = true then Task.start sampleContext
          TestController.Handle else Task.start sampleContext (leak 0 plainError)))).task
        false).ctx.Errors = some [plainError] ∧
      ((Sys.run sampleMarshalJSON "2026-01-01T00:00:00Z" [true, false, false, true, true, false]
        (Sys.start emptyWorld (fun k => if k = true then Task.start sampleContext
          TestController.Handle else Task.start sampleContext (leak 0 plainError)))).task
        true).line.map (fun L => L.fields.lookup "Errors") = some (some (.str "boom"))) ∧
    (((Sys.run sampleMarshalJSON "2026-01-01T00:00:00Z" [true, false, false, false, true, true]
        (Sys.start emptyWorld (fun k => if k = true then Task.start sampleContext
          (snoop 1) else Task.start sampleContext (recordError plainError)))).task
        true).ctx.Errors = none ∧
      ((Sys.run sampleMarshalJSON "2026-01-01T00:00:00Z" [true, false, false, false, true, true]
        (Sys.start emptyWorld (fun k => if k = true then Task.start sampleContext
          (snoop 1) else Task.start sampleContext (recordError plainError)))).task
        true).line.map (fun L => L.fields.lookup "Errors") =
        some (some (.str "[boom]"))) := by
  decide

theorem GetLogger_outcomes_witness :
    sampleContext.Get logKey = none ∧
    (sampleContext.Set logKey (.logPtr 4)).Get logKey = some (.logPtr 4) ∧
    (sampleContext.Set logKey (.str "oops")).Get logKey = some (.str "oops") ∧
    (∃ w2, GetLogger sampleContext emptyWorld = .ok (0, w2) ∧ w2.nextPtr = 1) ∧
    GetLogger (sampleContext.Set logKey (.logPtr 4)) emptyWorld = .ok (4, emptyWorld) ∧
    GetLogger (sampleContext.Set logKey (.str "oops")) emptyWorld =
      .error "oops is not logger" := by
  refine ⟨by decide, by decide, by decide, ?_, ?_, ?_⟩
  · obtain ⟨w2, h1, h2, _⟩ := (GetLogger_outcomes sampleContext emptyWorld).1 (by decide)
    exact ⟨w2, h1, h2⟩
  · exact (GetLogger_outcomes (sampleContext.Set logKey (.logPtr 4)) emptyWorld).2.1 4
      (by decide)
  · exact (GetLogger_outcomes (sampleContext.Set logKey (.str "oops")) emptyWorld).2.2.2
      (.str "oops") (by decide) (by intro l; exact Any.noConfusion)

theorem Logger_pre_next_post_witness :
    (Logger.run sampleMarshalJSON "2026-01-01T00:00:00Z" TestController.Handle
        (sampleContext, emptyWorld)).1.1 =
      (TestController.Handle (Logger.pre (sampleContext, emptyWorld)).1).1 ∧
    ((Logger.run sampleMarshalJSON "2026-01-01T00:00:00Z" TestController.Handle
        (sampleContext, emptyWorld)).1.2.heap 0).fields.lookup "Status" = some (.int 200) :=
  ⟨(Logger_pre_next_post sampleMarshalJSON "2026-01-01T00:00:00Z" TestController.Handle
      sampleContext emptyWorld).2.2.1,
   (Logger_pre_next_post sampleMarshalJSON "2026-01-01T00:00:00Z" TestController.Handle
      sampleContext emptyWorld).2.2.2.2⟩

end Denny
